import Mathlib

/-!
Verification of the trading repository's core subsystems against its
specification.

Shallow embedding conventions:
* `float` values are modelled as exact rationals (`ℚ`); the claims under
  study are exact-arithmetic properties (sign conditions, conservation
  identities, branch behaviour), not rounding properties.
* A pandas `Series` that may contain `NaN` entries is a `List (Option ℚ)`
  (`none` = `NaN`); `dropna` is `dropNone`.  Computations that can produce
  `NaN` (pandas `mean`/`std` of an empty or too-short series) return
  `Option ℚ` with `none` for `NaN`.
* `np.sqrt` has no exact rational counterpart, so every definition that
  needs it takes an explicit `sqrtQ : ℚ → ℚ` parameter.  `ratSqrt` below is
  the exact square root on perfect-square rationals and is used to
  instantiate `sqrtQ` on concrete inputs.
* Exceptions are modelled with `Except String`; a total Lean function
  models Python code that cannot raise.
-/

/-! ## Generic numeric helpers (numpy / pandas primitives) -/

/-- Arithmetic mean of a list; `sum / length` (division by zero yields `0`
for the empty list, which is only ever used under a non-emptiness guard). -/
def meanD (xs : List ℚ) : ℚ := xs.sum / (xs.length : ℚ)

/-- Pandas `Series.mean()`: `NaN` (here `none`) on an empty series. -/
def meanO (xs : List ℚ) : Option ℚ :=
  if xs.length = 0 then none else some (meanD xs)

/-- Sum of squared deviations from the mean. -/
def sqDevSum (xs : List ℚ) : ℚ :=
  (xs.map (fun x => (x - meanD xs) * (x - meanD xs))).sum

/-- Pandas `Series.std()` (ddof = 1): `NaN` (`none`) when fewer than two
observations; otherwise `sqrt (Σ (x - mean)² / (n - 1))`, with the square
root supplied by `sqrtQ`. -/
def stdO (sqrtQ : ℚ → ℚ) (xs : List ℚ) : Option ℚ :=
  if xs.length < 2 then none
  else some (sqrtQ (sqDevSum xs / ((xs.length : ℚ) - 1)))

/-- Pandas sample covariance (ddof = 1) of two aligned columns. -/
def sampleCov (xs ys : List ℚ) : ℚ :=
  (List.zipWith (fun a b => (a - meanD xs) * (b - meanD ys)) xs ys).sum
    / ((xs.length : ℚ) - 1)

/-- `Series.dropna()`: keep the non-`NaN` entries. -/
def dropNone (s : List (Option ℚ)) : List ℚ := s.filterMap id

/-- Exact rational square root: correct (`(ratSqrt q)² = q`) whenever `q` is
a ratio of perfect squares; used to instantiate the abstract `sqrtQ`
parameter on concrete inputs. -/
def ratSqrt (q : ℚ) : ℚ := (Nat.sqrt q.num.toNat : ℚ) / (Nat.sqrt q.den : ℚ)

/-- Insert into a sorted list (ascending). -/
def insertSorted (x : ℚ) : List ℚ → List ℚ
  | [] => [x]
  | y :: ys => if x ≤ y then x :: y :: ys else y :: insertSorted x ys

/-- Ascending sort, as performed internally by `np.percentile`. -/
def sortAsc (xs : List ℚ) : List ℚ := xs.foldr insertSorted []

/-- `np.percentile(xs, q)` with the default linear interpolation: for the
sorted data `a` and position `p = q/100 · (n-1)`, returns
`a⌊p⌋ + (p - ⌊p⌋) · (a⌊p⌋₊₁ - a⌊p⌋)`. -/
def percentileLinear (xs : List ℚ) (q : ℚ) : ℚ :=
  let a := sortAsc xs
  let p : ℚ := q / 100 * ((xs.length : ℚ) - 1)
  let lo : Nat := (Int.floor p).toNat
  let alo := a.getD lo 0
  alo + (p - (lo : ℚ)) * (a.getD (lo + 1) alo - alo)

/-! ## `src/risk_management/risk_metrics.py` -/

/-- `calculate_var(returns, confidence_level)` (module-level function):
drop `NaN`s, return `0.0` on an empty series, else the absolute value of
the `(1 - c)·100` percentile. -/
def calculate_var (returns : List (Option ℚ)) (confidence_level : ℚ) : ℚ :=
  let rets := dropNone returns
  if rets.length = 0 then 0
  else |percentileLinear rets ((1 - confidence_level) * 100)|

/-- `calculate_cvar(returns, confidence_level)` (module-level function):
mean of the returns at or below `-VaR`; falls back to `VaR` when that tail
is empty. -/
def calculate_cvar (returns : List (Option ℚ)) (confidence_level : ℚ) : ℚ :=
  let rets := dropNone returns
  if rets.length = 0 then 0
  else
    let var := calculate_var returns confidence_level
    let threshold := -var
    let tail_losses := rets.filter (fun r => r ≤ threshold)
    if tail_losses.length = 0 then var
    else |meanD tail_losses|

/-- Step-pocket for `(1 + returns).cumprod()`: running product threaded as
an accumulator. -/
def cumprodAux (acc : ℚ) : List ℚ → List ℚ
  | [] => []
  | x :: xs => (acc * x) :: cumprodAux (acc * x) xs

/-- Pandas `Series.cumprod()`. -/
def cumprod (xs : List ℚ) : List ℚ := cumprodAux 1 xs

/-- Step-pocket for `Series.expanding().max()` with the running maximum as
an accumulator. -/
def runningMaxAux (m : ℚ) : List ℚ → List ℚ
  | [] => []
  | x :: xs => (max m x) :: runningMaxAux (max m x) xs

/-- Pandas `Series.expanding().max()`. -/
def runningMax : List ℚ → List ℚ
  | [] => []
  | x :: xs => x :: runningMaxAux x xs

/-- Pandas `Series.min()` for a nonempty series. -/
def listMin : List ℚ → ℚ
  | [] => 0
  | x :: xs => xs.foldl min x

namespace RiskMetrics

/-- `RiskMetrics.calculate_sharpe_ratio`.  The argument is `self.returns`
(the series already stripped of `NaN` by the constructor).  Pandas
comparison `NaN == 0` is `False`, so a `NaN` standard deviation (series of
length < 2) slips past the zero-denominator guard and the result is `NaN`
(`none`). -/
def calculate_sharpe_ratio (sqrtQ : ℚ → ℚ) (returns : List ℚ)
    (risk_free_rate : ℚ := 0) (periods_per_year : ℚ := 252) : Option ℚ :=
  if returns.length = 0 then some 0
  else
    let excess_returns := returns.map (fun r => r - risk_free_rate / periods_per_year)
    match stdO sqrtQ excess_returns with
    | none => none
    | some s =>
      if s = 0 then some 0
      else some (sqrtQ periods_per_year * meanD excess_returns / s)

/-- `RiskMetrics.calculate_sortino_ratio`: like Sharpe but over the
downside (negative-excess) observations only. -/
def calculate_sortino_ratio (sqrtQ : ℚ → ℚ) (returns : List ℚ)
    (risk_free_rate : ℚ := 0) (periods_per_year : ℚ := 252) : Option ℚ :=
  if returns.length = 0 then some 0
  else
    let excess_returns := returns.map (fun r => r - risk_free_rate / periods_per_year)
    let downside_returns := excess_returns.filter (fun r => r < 0)
    if downside_returns.length = 0 then some 0
    else
      match stdO sqrtQ downside_returns with
      | none => none
      | some s =>
        if s = 0 then some 0
        else
          let downside_std := sqrtQ periods_per_year * s
          if downside_std = 0 then some 0
          else some (sqrtQ periods_per_year * meanD excess_returns / downside_std)

/-- `RiskMetrics.calculate_max_drawdown`: absolute value of the most
negative relative gap between the cumulative-return index and its running
peak. -/
def calculate_max_drawdown (returns : List ℚ) : ℚ :=
  if returns.length = 0 then 0
  else
    let cumulative := cumprod (returns.map (fun r => 1 + r))
    let running_max := runningMax cumulative
    let drawdown := List.zipWith (fun c m => (c - m) / m) cumulative running_max
    |listMin drawdown|

/-- `RiskMetrics.calculate_calmar_ratio`. -/
def calculate_calmar_ratio (returns : List ℚ) (periods_per_year : ℚ := 252) : ℚ :=
  if returns.length = 0 then 0
  else
    let annual_return := meanD returns * periods_per_year
    let max_dd := calculate_max_drawdown returns
    if max_dd = 0 then 0
    else annual_return / max_dd

/-- The dictionary returned by `RiskMetrics.get_all_metrics`.  Entries that
pandas can turn into `NaN` are `Option ℚ`. -/
structure AllMetrics where
  sharpe_ratio : Option ℚ
  sortino_ratio : Option ℚ
  max_drawdown : ℚ
  calmar_ratio : ℚ
  var_95 : ℚ
  cvar_95 : ℚ
  volatility : Option ℚ
  annual_return : Option ℚ
deriving DecidableEq

/-- `RiskMetrics.get_all_metrics` on a `RiskMetrics` built from the raw
series `s` (the constructor stores `self.returns = s.dropna()`).  The
`volatility` and `annual_return` entries are computed inline from
`self.returns.std()` and `self.returns.mean()` with no empty-series guard,
so they are `NaN` (`none`) when the stored series is empty. -/
def get_all_metrics (sqrtQ : ℚ → ℚ) (s : List (Option ℚ))
    (risk_free_rate : ℚ := 0) (periods_per_year : ℚ := 252) : AllMetrics :=
  let returns := dropNone s
  { sharpe_ratio := calculate_sharpe_ratio sqrtQ returns risk_free_rate periods_per_year
    sortino_ratio := calculate_sortino_ratio sqrtQ returns risk_free_rate periods_per_year
    max_drawdown := calculate_max_drawdown returns
    calmar_ratio := calculate_calmar_ratio returns periods_per_year
    var_95 := calculate_var (returns.map some) (95 / 100)
    cvar_95 := calculate_cvar (returns.map some) (95 / 100)
    volatility := (stdO sqrtQ returns).map (fun s => s * sqrtQ periods_per_year)
    annual_return := (meanO returns).map (fun m => m * periods_per_year) }

end RiskMetrics

/-! ## `src/risk_management/position_sizing.py` -/

namespace KellyCriterion

/-- `KellyCriterion.calculate_size`.  `fraction` is the constructor
parameter (default `0.25`); `volatility` and `expected_return` are the
optional keyword arguments (`none` = Python `None`); `np.clip(x, 0, 0.5)`
is `min (max x 0) (1/2)`. -/
def calculate_size (fraction capital price : ℚ)
    (volatility expected_return : Option ℚ)
    (win_probability : ℚ := 1/2) (win_loss_ratio : ℚ := 1) : ℚ :=
  let kelly_fraction :=
    match expected_return, volatility with
    | some er, some vol =>
      if 0 < vol then min (max (er / (vol * vol) * fraction) 0) (1/2)
      else 0
    | _, _ =>
      let q := 1 - win_probability
      if 0 < win_loss_ratio then
        min (max 0 ((win_probability * win_loss_ratio - q) / win_loss_ratio)) (1/2)
          * fraction
      else 0
  let position_value := capital * kelly_fraction
  position_value / price

end KellyCriterion

/-! ## `src/risk_management/portfolio_optimizer.py` -/

/-- Determinant of a rational matrix given as a list of rows, by Laplace
expansion along the first row.  `np.linalg.inv` fails (raises
`LinAlgError`) exactly on the matrices with determinant zero, which is the
only observable effect of the unused `inv_cov` computation below. -/
def detQ (rows : List (List ℚ)) : ℚ :=
  match rows with
  | [] => 1
  | r :: rest =>
    ((List.range r.length).map
      (fun j => (-1) ^ j * r.getD j 0 * detQ (rest.map (fun row => row.eraseIdx j)))).sum
termination_by rows.length
decreasing_by simp_wf

namespace PortfolioOptimizer

/-- `PortfolioOptimizer.calculate_covariance_matrix` on a returns matrix
given as a list of per-asset columns: annualized (×252) pairwise sample
covariances. -/
def calculate_covariance_matrix (cols : List (List ℚ)) : List (List ℚ) :=
  cols.map (fun ci => cols.map (fun cj => 252 * sampleCov ci cj))

/-- `np.diag` of a square matrix given as a list of rows. -/
def diagQ (m : List (List ℚ)) : List ℚ :=
  (List.range m.length).map (fun i => (m.getD i []).getD i 0)

/-- The `inv_vols / np.sum(inv_vols)` normalization step of
`risk_parity_weights` (lines 156–157): inverse volatilities scaled to sum
to one. -/
def invVolNormalize (vols : List ℚ) : List ℚ :=
  let inv_vols := vols.map (fun v => 1 / v)
  inv_vols.map (fun x => x / inv_vols.sum)

/-- `PortfolioOptimizer.risk_parity_weights`.  The source first computes
`inv_cov = np.linalg.inv(cov_matrix)` and never uses it; its only
observable effect is the `LinAlgError` raised on a singular covariance
matrix, modelled here as the `Except.error` branch.  On the success path
the weights are inverse volatilities (square roots of the covariance
diagonal) normalized to sum to one. -/
def risk_parity_weights (sqrtQ : ℚ → ℚ) (cols : List (List ℚ)) :
    Except String (List ℚ) :=
  let cov_matrix := calculate_covariance_matrix cols
  if detQ cov_matrix = 0 then Except.error "Singular matrix"
  else
    let vols := (diagQ cov_matrix).map sqrtQ
    Except.ok (invVolNormalize vols)

/-- The annualized volatility the optimizer assigns to asset `j`: square
root of the `j`-th diagonal entry of the annualized covariance matrix. -/
def assetVol (sqrtQ : ℚ → ℚ) (cols : List (List ℚ)) (j : Nat) : ℚ :=
  sqrtQ ((diagQ (calculate_covariance_matrix cols)).getD j 0)

end PortfolioOptimizer

/-! ## `src/backtesting/backtester.py` -/

/-- The `side` field of a trade record. -/
inductive Side where
  | buy
  | sell
  | exit
deriving DecidableEq

/-- A trade record as appended to `self.trades`; the timestamp is the bar
index, and `pnl = none` when the dictionary has no `'pnl'` key. -/
structure Trade where
  timestamp : Nat
  side : Side
  quantity : ℚ
  price : ℚ
  value : ℚ
  commission : ℚ
  pnl : Option ℚ
deriving DecidableEq

/-- Constructor configuration of `Backtester`. -/
structure BtConfig where
  initial_capital : ℚ := 100000
  commission : ℚ := 1 / 1000
  slippage : ℚ := 1 / 2000
deriving DecidableEq

/-- The mutable trading state of a run: `self.capital`, `self.positions`
(a dict with the price column as its only possible key, hence `Option`),
`self.trades`, and the loop-local `current_position` flag. -/
structure ExecState where
  capital : ℚ
  positions : Option ℚ
  trades : List Trade
  currentPosition : Int
deriving DecidableEq

/-- Full per-run state: the trading state plus the per-bar columns written
into `results` and the equity curve.  `qtyCol` records the held quantity
marked to market on each bar (`0` when flat); it is the quantity the
`portfolio_value` computation reads. -/
structure BtState where
  exec : ExecState
  positionCol : List Int
  capitalCol : List ℚ
  portfolioValueCol : List ℚ
  qtyCol : List ℚ
  equityCurve : List ℚ
deriving DecidableEq

/-- `Backtester.calculate_execution_price`: slippage against the trade. -/
def calculate_execution_price (cfg : BtConfig) (signal_price : ℚ) (side : Side) : ℚ :=
  if side = Side.buy then signal_price * (1 + cfg.slippage)
  else signal_price * (1 - cfg.slippage)

/-- `Backtester.calculate_commission_cost`. -/
def calculate_commission_cost (cfg : BtConfig) (trade_value : ℚ) : ℚ :=
  trade_value * cfg.commission

/-- One iteration of the trading part of the `run` loop (lines 91–144 of
the source), acting on the mutable trading state.  The position-sizing
call `strategy.calculate_position_size(signal_dict, data.iloc[:i+1])` is
abstracted as `sizer signal execution_price i` (its result may depend on
the signal, the adjusted price, and the data prefix up to bar `i`).  Note
that the exit branch is nested inside `if signal != 0 and ...` exactly as
in the source, which makes it unreachable. -/
def btTrade (cfg : BtConfig) (sizer : Int → ℚ → Nat → ℚ)
    (prices : List ℚ) (signals : List Int) (i : Nat) (st : ExecState) : ExecState :=
  let current_price := prices.getD i 0
  let signal := signals.getD i 0
  if signal ≠ 0 ∧ signal ≠ st.currentPosition then
    if st.currentPosition = 0 then
      -- Opening position
      let execution_price :=
        calculate_execution_price cfg current_price (if 0 < signal then Side.buy else Side.sell)
      let quantity := sizer signal execution_price i
      let trade_value := |quantity| * execution_price
      let commission_cost := calculate_commission_cost cfg trade_value
      if st.capital ≥ trade_value + commission_cost then
        { capital := st.capital - (trade_value + commission_cost)
          positions := some quantity
          trades := st.trades ++
            [{ timestamp := i
               side := if 0 < signal then Side.buy else Side.sell
               quantity := |quantity|
               price := execution_price
               value := trade_value
               commission := commission_cost
               pnl := none }]
          currentPosition := signal }
      else st
    else if signal = 0 ∧ st.currentPosition ≠ 0 then
      -- Exiting position (dead branch: the enclosing guard has signal ≠ 0)
      match st.positions with
      | some quantity =>
        let execution_price :=
          calculate_execution_price cfg current_price (if 0 < quantity then Side.sell else Side.buy)
        let trade_value := |quantity| * execution_price
        let commission_cost := calculate_commission_cost cfg trade_value
        let pnl := if 0 < i then (execution_price - prices.getD (i - 1) 0) * quantity else 0
        { capital := st.capital + trade_value - commission_cost
          positions := none
          trades := st.trades ++
            [{ timestamp := i
               side := Side.exit
               quantity := |quantity|
               price := execution_price
               value := trade_value
               commission := commission_cost
               pnl := some pnl }]
          currentPosition := 0 }
      | none => st
    else st
  else st

/-- One full iteration of the `run` loop: trade, then record the position
flag, capital, portfolio value (capital plus mark-to-market of any open
position at the bar's price) and append the portfolio value to the equity
curve. -/
def btStep (cfg : BtConfig) (sizer : Int → ℚ → Nat → ℚ)
    (prices : List ℚ) (signals : List Int) (i : Nat) (st : BtState) : BtState :=
  let ex := btTrade cfg sizer prices signals i st.exec
  let current_price := prices.getD i 0
  let held_qty : ℚ := match ex.positions with | some q => q | none => 0
  let portfolio_value := ex.capital + held_qty * current_price
  { exec := ex
    positionCol := st.positionCol ++ [ex.currentPosition]
    capitalCol := st.capitalCol ++ [ex.capital]
    portfolioValueCol := st.portfolioValueCol ++ [portfolio_value]
    qtyCol := st.qtyCol ++ [held_qty]
    equityCurve := st.equityCurve ++ [portfolio_value] }

/-- The state at the start of `run`: tracking reset to the initial
capital, no positions, no trades, empty columns. -/
def btInit (cfg : BtConfig) : BtState :=
  { exec := { capital := cfg.initial_capital
              positions := none
              trades := []
              currentPosition := 0 }
    positionCol := []
    capitalCol := []
    portfolioValueCol := []
    qtyCol := []
    equityCurve := [] }

/-- State after the first `n` iterations of the `run` loop. -/
def btRunAux (cfg : BtConfig) (sizer : Int → ℚ → Nat → ℚ)
    (prices : List ℚ) (signals : List Int) : Nat → BtState
  | 0 => btInit cfg
  | n + 1 => btStep cfg sizer prices signals n (btRunAux cfg sizer prices signals n)

/-- `Backtester.run`: the full pass over every bar of the price series. -/
def btRun (cfg : BtConfig) (sizer : Int → ℚ → Nat → ℚ)
    (prices : List ℚ) (signals : List Int) : BtState :=
  btRunAux cfg sizer prices signals prices.length

/-- `Backtester._calculate_win_rate`: `t.get('pnl', 0) > 0` counts a
winner, `'pnl' in t and t['pnl'] != 0` counts toward the denominator. -/
def win_rate (trades : List Trade) : ℚ :=
  if trades.length < 2 then 0
  else
    let winning_trades := (trades.filter (fun t => 0 < t.pnl.getD 0)).length
    let total_trades_with_pnl :=
      (trades.filter (fun t => t.pnl.isSome ∧ t.pnl.getD 0 ≠ 0)).length
    if total_trades_with_pnl = 0 then 0
    else (winning_trades : ℚ) / (total_trades_with_pnl : ℚ)

/-- The trade value `|quantity| × execution_price` that the opening branch
of the `run` loop computes on bar `i` (before deciding whether capital can
cover it). -/
def openTradeValue (cfg : BtConfig) (sizer : Int → ℚ → Nat → ℚ)
    (prices : List ℚ) (signals : List Int) (i : Nat) : ℚ :=
  let current_price := prices.getD i 0
  let signal := signals.getD i 0
  let execution_price :=
    calculate_execution_price cfg current_price (if 0 < signal then Side.buy else Side.sell)
  let quantity := sizer signal execution_price i
  |quantity| * execution_price

/-! ## General list lemmas -/

lemma getD_concat {α : Type} (l : List α) (x d : α) : (l ++ [x]).getD l.length d = x := by
  rw [List.getD_append_right l [x] d l.length le_rfl]
  simp

lemma foldl_min_mem (l : List ℚ) (a : ℚ) : l.foldl min a ∈ a :: l := by
  induction l generalizing a with
  | nil => simp
  | cons x xs ih =>
    simp only [List.foldl_cons]
    rcases List.mem_cons.mp (ih (min a x)) with h | h
    · rw [h]
      rcases min_choice a x with hm | hm <;> rw [hm] <;> simp
    · simp [h]

/-! ## Claim C10 -/

/-- C10: for every capital ≥ 0, price > 0 and any combination of the
optional arguments, `KellyCriterion.calculate_size` (with its configured
fraction nonnegative, as in the default quarter-Kelly setup) returns a
nonnegative quantity; and whenever `expected_return` and `volatility` are
both supplied with positive volatility, the implied position value
(quantity × price) is at most half of capital, regardless of the
configured fraction. -/
theorem kelly_size_nonneg_and_capped
    (fraction capital price : ℚ) (volatility expected_return : Option ℚ)
    (win_probability win_loss_ratio : ℚ)
    (hcap : 0 ≤ capital) (hprice : 0 < price) :
    (0 ≤ fraction →
      0 ≤ KellyCriterion.calculate_size fraction capital price volatility
            expected_return win_probability win_loss_ratio)
    ∧ (∀ vol er, volatility = some vol → expected_return = some er → 0 < vol →
        KellyCriterion.calculate_size fraction capital price volatility
            expected_return win_probability win_loss_ratio * price ≤ capital / 2) := by
  constructor
  · intro hfrac
    rcases expected_return with _ | er <;> rcases volatility with _ | vol <;>
      simp only [KellyCriterion.calculate_size] <;>
      refine div_nonneg (mul_nonneg hcap ?_) hprice.le
    · split_ifs with h
      · exact mul_nonneg (le_min (le_max_left 0 _) (by norm_num)) hfrac
      · exact le_rfl
    · split_ifs with h
      · exact mul_nonneg (le_min (le_max_left 0 _) (by norm_num)) hfrac
      · exact le_rfl
    · split_ifs with h
      · exact mul_nonneg (le_min (le_max_left 0 _) (by norm_num)) hfrac
      · exact le_rfl
    · split_ifs with h
      · exact le_min (le_max_right _ 0) (by norm_num)
      · exact le_rfl
  · intro vol er hv he hvol
    subst hv
    subst he
    simp only [KellyCriterion.calculate_size, if_pos hvol]
    rw [div_mul_cancel₀ _ (ne_of_gt hprice)]
    calc capital * min (max (er / (vol * vol) * fraction) 0) (1/2)
        ≤ capital * (1/2) := by
          exact mul_le_mul_of_nonneg_left (min_le_right _ _) hcap
      _ = capital / 2 := by ring

/-- Witness for C10 at fraction 1/4, capital 100000, price 100,
volatility 0.2, expected return 0.1. -/
theorem kelly_size_nonneg_and_capped_witness :
    (0 ≤ (100000 : ℚ) ∧ 0 < (100 : ℚ) ∧ 0 ≤ (1/4 : ℚ) ∧ 0 < (2/10 : ℚ))
    ∧ 0 ≤ KellyCriterion.calculate_size (1/4) 100000 100 (some (2/10)) (some (1/10)) (1/2) 1
    ∧ KellyCriterion.calculate_size (1/4) 100000 100 (some (2/10)) (some (1/10)) (1/2) 1 * 100
        ≤ 100000 / 2 := by
  have h := kelly_size_nonneg_and_capped (1/4) 100000 100 (some (2/10)) (some (1/10))
    (1/2) 1 (by norm_num) (by norm_num)
  exact ⟨by norm_num, h.1 (by norm_num), h.2 (2/10) (1/10) rfl rfl (by norm_num)⟩

/-! ## Claim C7 -/

/-- C7: for every return series and confidence level in (0, 1),
`calculate_var` and `calculate_cvar` are nonnegative and
`calculate_cvar ≥ calculate_var`. -/
theorem var_cvar_nonneg_and_ordered (returns : List (Option ℚ)) (c : ℚ)
    (hc0 : 0 < c) (hc1 : c < 1) :
    0 ≤ calculate_var returns c ∧ 0 ≤ calculate_cvar returns c ∧
      calculate_var returns c ≤ calculate_cvar returns c := by
  by_cases hlen : (dropNone returns).length = 0
  · simp [calculate_var, calculate_cvar, hlen]
  · have hvnn : 0 ≤ calculate_var returns c := by
      simp [calculate_var, hlen]
    refine ⟨hvnn, ?_⟩
    simp only [calculate_cvar, hlen, if_neg hlen, if_false]
    by_cases htail :
        ((dropNone returns).filter
          (fun r => r ≤ -(calculate_var returns c))).length = 0
    · simp [htail, hvnn]
    · simp only [htail, if_neg htail, if_false]
      have hmem : ∀ x ∈ (dropNone returns).filter
          (fun r => r ≤ -(calculate_var returns c)), x ≤ -(calculate_var returns c) := by
        intro x hx
        simpa using (List.mem_filter.mp hx).2
      have hsum := List.sum_le_card_nsmul _ _ hmem
      have hlenpos : (0 : ℚ) <
          (((dropNone returns).filter
            (fun r => r ≤ -(calculate_var returns c))).length : ℚ) := by
        exact_mod_cast Nat.pos_of_ne_zero htail
      have hmean : meanD ((dropNone returns).filter
          (fun r => r ≤ -(calculate_var returns c))) ≤ -(calculate_var returns c) := by
        rw [meanD, div_le_iff₀ hlenpos]
        rw [nsmul_eq_mul] at hsum
        linarith [hsum]
      have habs : |meanD ((dropNone returns).filter
          (fun r => r ≤ -(calculate_var returns c)))| =
          -(meanD ((dropNone returns).filter
            (fun r => r ≤ -(calculate_var returns c)))) := by
        apply abs_of_nonpos
        linarith
      constructor
      · exact abs_nonneg _
      · rw [habs]
        linarith

/-- Witness for C7 on a four-element series at the default 95% level. -/
theorem var_cvar_nonneg_and_ordered_witness :
    ((0 : ℚ) < 95/100 ∧ (95/100 : ℚ) < 1)
    ∧ 0 ≤ calculate_var [some (-1/10), some (2/10), some (3/10), some (-5/100)] (95/100)
    ∧ 0 ≤ calculate_cvar [some (-1/10), some (2/10), some (3/10), some (-5/100)] (95/100)
    ∧ calculate_var [some (-1/10), some (2/10), some (3/10), some (-5/100)] (95/100)
        ≤ calculate_cvar [some (-1/10), some (2/10), some (3/10), some (-5/100)] (95/100) := by
  have h := var_cvar_nonneg_and_ordered
    [some (-1/10), some (2/10), some (3/10), some (-5/100)] (95/100)
    (by norm_num) (by norm_num)
  exact ⟨by norm_num, h.1, h.2.1, h.2.2⟩

/-! ## Claim C3 -/

/-- C3 counterexample: on the series `[NaN]`, which is empty after
`dropna`, not every entry of `get_all_metrics` is `0.0`: the `volatility`
and `annual_return` entries are computed inline with no empty-series guard
and come out as pandas `NaN` (`none`), not `0.0`. -/
theorem get_all_metrics_not_all_zero_on_empty :
    ¬ ((RiskMetrics.get_all_metrics ratSqrt [none]).sharpe_ratio = some 0
      ∧ (RiskMetrics.get_all_metrics ratSqrt [none]).sortino_ratio = some 0
      ∧ (RiskMetrics.get_all_metrics ratSqrt [none]).max_drawdown = 0
      ∧ (RiskMetrics.get_all_metrics ratSqrt [none]).calmar_ratio = 0
      ∧ (RiskMetrics.get_all_metrics ratSqrt [none]).var_95 = 0
      ∧ (RiskMetrics.get_all_metrics ratSqrt [none]).cvar_95 = 0
      ∧ (RiskMetrics.get_all_metrics ratSqrt [none]).volatility = some 0
      ∧ (RiskMetrics.get_all_metrics ratSqrt [none]).annual_return = some 0) := by
  intro h
  have hvol := h.2.2.2.2.2.2.1
  simp [RiskMetrics.get_all_metrics, dropNone, stdO] at hvol

/-- C3 (amended): on a series that is empty after dropping `NaN`s, every
`calculate_*` method of `RiskMetrics` hits its empty-series guard and
returns the neutral `0.0` without raising, while the `volatility` and
`annual_return` entries of `get_all_metrics` — computed inline without a
guard — are `NaN` (`none`), not `0.0`. -/
theorem get_all_metrics_empty_series (sqrtQ : ℚ → ℚ) (rf P : ℚ)
    (s : List (Option ℚ)) (h : dropNone s = []) :
    RiskMetrics.get_all_metrics sqrtQ s rf P =
      { sharpe_ratio := some 0
        sortino_ratio := some 0
        max_drawdown := 0
        calmar_ratio := 0
        var_95 := 0
        cvar_95 := 0
        volatility := none
        annual_return := none } := by
  simp only [RiskMetrics.get_all_metrics]
  rw [h]
  simp [RiskMetrics.calculate_sharpe_ratio,
    RiskMetrics.calculate_sortino_ratio, RiskMetrics.calculate_max_drawdown,
    RiskMetrics.calculate_calmar_ratio, calculate_var, calculate_cvar,
    stdO, meanO, dropNone]

/-- Witness for C3 (amended) at the concrete series `[NaN]`. -/
theorem get_all_metrics_empty_series_witness :
    dropNone [none] = []
    ∧ RiskMetrics.get_all_metrics ratSqrt [none] 0 252 =
      { sharpe_ratio := some 0
        sortino_ratio := some 0
        max_drawdown := 0
        calmar_ratio := 0
        var_95 := 0
        cvar_95 := 0
        volatility := none
        annual_return := none } :=
  ⟨by simp [dropNone],
    get_all_metrics_empty_series ratSqrt 0 252 [none] (by simp [dropNone])⟩

/-! ## Claim C6 -/

lemma cumprodAux_pos (l : List ℚ) : ∀ acc : ℚ, 0 < acc → (∀ x ∈ l, 0 < x) →
    ∀ c ∈ cumprodAux acc l, 0 < c := by
  induction l with
  | nil => intro acc _ _ c hc; simp [cumprodAux] at hc
  | cons x xs ih =>
    intro acc hacc hl c hc
    have hx : 0 < x := hl x (List.mem_cons_self x xs)
    have hax : 0 < acc * x := mul_pos hacc hx
    simp only [cumprodAux, List.mem_cons] at hc
    rcases hc with rfl | hc
    · exact hax
    · exact ih (acc * x) hax (fun y hy => hl y (List.mem_cons_of_mem x hy)) c hc

lemma drawdown_bounds (c : List ℚ) : ∀ m : ℚ, 0 < m → (∀ x ∈ c, 0 < x) →
    ∀ d ∈ List.zipWith (fun c m => (c - m) / m) c (runningMaxAux m c),
      -1 < d ∧ d ≤ 0 := by
  induction c with
  | nil => intro m _ _ d hd; simp at hd
  | cons x xs ih =>
    intro m hm hc d hd
    have hx : 0 < x := hc x (List.mem_cons_self x xs)
    have hm' : 0 < max m x := lt_of_lt_of_le hm (le_max_left m x)
    simp only [runningMaxAux, List.zipWith_cons_cons, List.mem_cons] at hd
    rcases hd with rfl | hd
    · constructor
      · rw [lt_div_iff₀ hm']
        have : x ≤ max m x := le_max_right m x
        nlinarith
      · apply div_nonpos_of_nonpos_of_nonneg
        · simp [le_max_right m x]
        · exact hm'.le
    · exact ih (max m x) hm' (fun y hy => hc y (List.mem_cons_of_mem x hy)) d hd

lemma drawdown_zero_of_nondecreasing (l : List ℚ) : ∀ acc m : ℚ, 0 < m → m ≤ acc →
    (∀ x ∈ l, 1 ≤ x) →
    ∀ d ∈ List.zipWith (fun c m => (c - m) / m) (cumprodAux acc l)
        (runningMaxAux m (cumprodAux acc l)), d = 0 := by
  induction l with
  | nil => intro acc m _ _ _ d hd; simp [cumprodAux] at hd
  | cons x xs ih =>
    intro acc m hm hma hl d hd
    have hx : 1 ≤ x := hl x (List.mem_cons_self x xs)
    have hacc : 0 < acc := lt_of_lt_of_le hm hma
    have hax : acc ≤ acc * x := le_mul_of_one_le_right hacc.le hx
    have hmax : max m (acc * x) = acc * x := max_eq_right (le_trans hma hax)
    simp only [cumprodAux, runningMaxAux, List.zipWith_cons_cons, List.mem_cons, hmax] at hd
    rcases hd with rfl | hd
    · simp
    · exact ih (acc * x) (acc * x) (lt_of_lt_of_le hacc hax) le_rfl
        (fun y hy => hl y (List.mem_cons_of_mem x hy)) d hd

/-- C6: `RiskMetrics.calculate_max_drawdown` lies in [0, 1] whenever every
return exceeds −1, and equals 0 whenever every return is nonnegative. -/
theorem max_drawdown_bounds (returns : List ℚ) :
    ((∀ r ∈ returns, -1 < r) →
      0 ≤ RiskMetrics.calculate_max_drawdown returns ∧
        RiskMetrics.calculate_max_drawdown returns ≤ 1)
    ∧ ((∀ r ∈ returns, 0 ≤ r) → RiskMetrics.calculate_max_drawdown returns = 0) := by
  cases returns with
  | nil => simp [RiskMetrics.calculate_max_drawdown]
  | cons r rs =>
    constructor
    · intro hpos
      have hfac : ∀ x ∈ (r :: rs).map (fun r => 1 + r), 0 < x := by
        intro x hx
        rcases List.mem_map.mp hx with ⟨y, hy, rfl⟩
        have := hpos y hy
        linarith
      simp only [RiskMetrics.calculate_max_drawdown, List.length_cons, List.map_cons,
        cumprod, cumprodAux, runningMax, if_neg (Nat.succ_ne_zero rs.length),
        List.zipWith_cons_cons]
      have hc0 : (0 : ℚ) < 1 * (1 + r) := by
        have := hpos r (List.mem_cons_self r rs)
        nlinarith
      have hcpos : ∀ x ∈ cumprodAux (1 * (1 + r)) (rs.map (fun r => 1 + r)), 0 < x := by
        intro x hx
        exact cumprodAux_pos _ (1 * (1 + r)) hc0
          (fun y hy => hfac y (List.mem_cons_of_mem _ hy)) x hx
      have hdd := drawdown_bounds (cumprodAux (1 * (1 + r)) (rs.map (fun r => 1 + r)))
        (1 * (1 + r)) hc0 hcpos
      have hhead : (1 * (1 + r) - 1 * (1 + r)) / (1 * (1 + r)) = 0 := by
        simp
      rw [hhead]
      have hmem := foldl_min_mem
        (List.zipWith (fun c m => (c - m) / m)
          (cumprodAux (1 * (1 + r)) (rs.map (fun r => 1 + r)))
          (runningMaxAux (1 * (1 + r)) (cumprodAux (1 * (1 + r)) (rs.map (fun r => 1 + r)))))
        0
      simp only [listMin]
      rcases List.mem_cons.mp hmem with heq | hmemtail
      · rw [heq]
        norm_num
      · have := hdd _ hmemtail
        constructor
        · exact abs_nonneg _
        · rw [abs_of_nonpos this.2]
          linarith [this.1]
    · intro hnn
      have hfac : ∀ x ∈ rs.map (fun r => 1 + r), 1 ≤ x := by
        intro x hx
        rcases List.mem_map.mp hx with ⟨y, hy, rfl⟩
        have := hnn y (List.mem_cons_of_mem r hy)
        linarith
      have hc0 : (0 : ℚ) < 1 * (1 + r) := by
        have := hnn r (List.mem_cons_self r rs)
        nlinarith
      simp only [RiskMetrics.calculate_max_drawdown, List.length_cons, List.map_cons,
        cumprod, cumprodAux, runningMax, if_neg (Nat.succ_ne_zero rs.length),
        List.zipWith_cons_cons]
      have hzero := drawdown_zero_of_nondecreasing (rs.map (fun r => 1 + r))
        (1 * (1 + r)) (1 * (1 + r)) hc0 le_rfl hfac
      have hhead : (1 * (1 + r) - 1 * (1 + r)) / (1 * (1 + r)) = 0 := by
        simp
      rw [hhead]
      have hmem := foldl_min_mem
        (List.zipWith (fun c m => (c - m) / m)
          (cumprodAux (1 * (1 + r)) (rs.map (fun r => 1 + r)))
          (runningMaxAux (1 * (1 + r)) (cumprodAux (1 * (1 + r)) (rs.map (fun r => 1 + r)))))
        0
      simp only [listMin]
      rcases List.mem_cons.mp hmem with heq | hmemtail
      · rw [heq]
        norm_num
      · rw [hzero _ hmemtail]
        norm_num

/-- Witness for C6 on the series [0.1, −0.2, 0.05] (all > −1) and on the
all-nonnegative series [0.1, 0, 0.05]. -/
theorem max_drawdown_bounds_witness :
    (∀ r ∈ [(1:ℚ)/10, -2/10, 5/100], -1 < r)
    ∧ 0 ≤ RiskMetrics.calculate_max_drawdown [(1:ℚ)/10, -2/10, 5/100]
    ∧ RiskMetrics.calculate_max_drawdown [(1:ℚ)/10, -2/10, 5/100] ≤ 1
    ∧ (∀ r ∈ [(1:ℚ)/10, 0, 5/100], 0 ≤ r)
    ∧ RiskMetrics.calculate_max_drawdown [(1:ℚ)/10, 0, 5/100] = 0 := by
  have h1 := (max_drawdown_bounds [(1:ℚ)/10, -2/10, 5/100]).1
    (by intro r hr; fin_cases hr <;> norm_num)
  have h2 := (max_drawdown_bounds [(1:ℚ)/10, 0, 5/100]).2
    (by intro r hr; fin_cases hr <;> norm_num)
  exact ⟨by intro r hr; fin_cases hr <;> norm_num, h1.1, h1.2,
    by intro r hr; fin_cases hr <;> norm_num, h2⟩

/-! ## Claim C4 -/

/-- C4: on any bar where the `run` loop attempts to open a position (flat
state, nonzero signal) and capital is strictly below trade value plus
commission, the bar is a no-op on the trading state: capital, the
positions mapping, the trade log and the current-position flag are left
exactly as they were (`btStep` is a total function, so no exception is
raised; `Backtester.run` is the fold of `btStep` over the bars). -/
theorem insufficient_capital_skips_trade (cfg : BtConfig)
    (sizer : Int → ℚ → Nat → ℚ) (prices : List ℚ) (signals : List Int)
    (i : Nat) (st : BtState)
    (hflat : st.exec.currentPosition = 0)
    (hsig : signals.getD i 0 ≠ 0)
    (hcap : st.exec.capital < openTradeValue cfg sizer prices signals i
        + calculate_commission_cost cfg (openTradeValue cfg sizer prices signals i)) :
    (btStep cfg sizer prices signals i st).exec = st.exec := by
  have hguard : signals.getD i 0 ≠ 0 ∧ signals.getD i 0 ≠ st.exec.currentPosition :=
    ⟨hsig, by rw [hflat]; exact hsig⟩
  simp only [openTradeValue] at hcap
  have hnot : ¬ (st.exec.capital ≥
      |sizer (signals.getD i 0)
          (calculate_execution_price cfg (prices.getD i 0)
            (if 0 < signals.getD i 0 then Side.buy else Side.sell)) i|
        * calculate_execution_price cfg (prices.getD i 0)
            (if 0 < signals.getD i 0 then Side.buy else Side.sell)
      + calculate_commission_cost cfg
          (|sizer (signals.getD i 0)
              (calculate_execution_price cfg (prices.getD i 0)
                (if 0 < signals.getD i 0 then Side.buy else Side.sell)) i|
            * calculate_execution_price cfg (prices.getD i 0)
                (if 0 < signals.getD i 0 then Side.buy else Side.sell))) :=
    not_le.mpr hcap
  show btTrade cfg sizer prices signals i st.exec = st.exec
  simp only [btTrade]
  rw [if_pos hguard, if_pos hflat, if_neg hnot]

/-- Witness for C4: flat state with capital 10 cannot afford one unit at
price 100 plus costs; the step changes nothing. -/
theorem insufficient_capital_skips_trade_witness :
    (let st : BtState :=
      { exec := { capital := 10, positions := none, trades := [], currentPosition := 0 }
        positionCol := []
        capitalCol := []
        portfolioValueCol := []
        qtyCol := []
        equityCurve := [] }
    st.exec.currentPosition = 0
    ∧ [(1 : Int)].getD 0 0 ≠ 0
    ∧ st.exec.capital < openTradeValue {} (fun _ _ _ => 1) [100] [1] 0
        + calculate_commission_cost {} (openTradeValue {} (fun _ _ _ => 1) [100] [1] 0)
    ∧ (btStep {} (fun _ _ _ => 1) [100] [1] 0 st).exec = st.exec) := by
  refine ⟨rfl, by norm_num, ?_, ?_⟩
  · norm_num [openTradeValue, calculate_execution_price, calculate_commission_cost]
  · exact insufficient_capital_skips_trade {} (fun _ _ _ => 1) [100] [1] 0 _ rfl
      (by norm_num)
      (by norm_num [openTradeValue, calculate_execution_price, calculate_commission_cost])

/-! ## Claim C5 -/

lemma getD_concat_of_length {α : Type} (l : List α) (x d : α) (n : Nat)
    (h : l.length = n) : (l ++ [x]).getD n d = x := by
  subst h
  exact getD_concat l x d

lemma btRunAux_lengths (cfg : BtConfig) (sizer : Int → ℚ → Nat → ℚ)
    (prices : List ℚ) (signals : List Int) : ∀ n : Nat,
    ((btRunAux cfg sizer prices signals n).capitalCol.length = n)
    ∧ ((btRunAux cfg sizer prices signals n).portfolioValueCol.length = n)
    ∧ ((btRunAux cfg sizer prices signals n).qtyCol.length = n)
    ∧ ((btRunAux cfg sizer prices signals n).equityCurve.length = n) := by
  intro n
  induction n with
  | zero => simp [btRunAux, btInit]
  | succ n ih =>
    simp only [btRunAux, btStep, List.length_append, List.length_cons, List.length_nil]
    omega

lemma btRunAux_invariant (cfg : BtConfig) (sizer : Int → ℚ → Nat → ℚ)
    (prices : List ℚ) (signals : List Int) : ∀ n t : Nat, t < n →
    ((btRunAux cfg sizer prices signals n).portfolioValueCol.getD t 0
      = (btRunAux cfg sizer prices signals n).capitalCol.getD t 0
        + (btRunAux cfg sizer prices signals n).qtyCol.getD t 0 * prices.getD t 0)
    ∧ ((btRunAux cfg sizer prices signals n).equityCurve.getD t 0
      = (btRunAux cfg sizer prices signals n).portfolioValueCol.getD t 0) := by
  intro n
  induction n with
  | zero => intro t ht; omega
  | succ n ih =>
    intro t ht
    have hlen := btRunAux_lengths cfg sizer prices signals n
    by_cases htn : t < n
    · simp only [btRunAux, btStep]
      rw [List.getD_append _ _ _ _ (by omega : t < (btRunAux cfg sizer prices signals n).portfolioValueCol.length),
        List.getD_append _ _ _ _ (by omega : t < (btRunAux cfg sizer prices signals n).capitalCol.length),
        List.getD_append _ _ _ _ (by omega : t < (btRunAux cfg sizer prices signals n).qtyCol.length),
        List.getD_append _ _ _ _ (by omega : t < (btRunAux cfg sizer prices signals n).equityCurve.length)]
      exact ih t htn
    · have hteq : t = n := by omega
      subst hteq
      simp only [btRunAux, btStep]
      rw [getD_concat_of_length _ _ _ _ hlen.2.1, getD_concat_of_length _ _ _ _ hlen.1,
        getD_concat_of_length _ _ _ _ hlen.2.2.1, getD_concat_of_length _ _ _ _ hlen.2.2.2]
      exact ⟨rfl, rfl⟩

/-- C5: on every bar `t` of a run, the recorded portfolio value equals the
recorded capital plus the held quantity (0 when flat) times the bar's
price, and the equity-curve entry equals that portfolio value. -/
theorem portfolio_value_identity (cfg : BtConfig) (sizer : Int → ℚ → Nat → ℚ)
    (prices : List ℚ) (signals : List Int) (t : Nat) (ht : t < prices.length) :
    ((btRun cfg sizer prices signals).portfolioValueCol.getD t 0
      = (btRun cfg sizer prices signals).capitalCol.getD t 0
        + (btRun cfg sizer prices signals).qtyCol.getD t 0 * prices.getD t 0)
    ∧ ((btRun cfg sizer prices signals).equityCurve.getD t 0
      = (btRun cfg sizer prices signals).portfolioValueCol.getD t 0) :=
  btRunAux_invariant cfg sizer prices signals prices.length t ht

/-- Witness for C5 on a two-bar run that opens a long position on the
first bar. -/
theorem portfolio_value_identity_witness :
    (0 < [(100 : ℚ), 100].length)
    ∧ (((btRun {} (fun _ _ _ => 1) [100, 100] [1, 0]).portfolioValueCol.getD 0 0
        = (btRun {} (fun _ _ _ => 1) [100, 100] [1, 0]).capitalCol.getD 0 0
          + (btRun {} (fun _ _ _ => 1) [100, 100] [1, 0]).qtyCol.getD 0 0
            * [(100 : ℚ), 100].getD 0 0)
      ∧ ((btRun {} (fun _ _ _ => 1) [100, 100] [1, 0]).equityCurve.getD 0 0
        = (btRun {} (fun _ _ _ => 1) [100, 100] [1, 0]).portfolioValueCol.getD 0 0)) :=
  ⟨by norm_num, portfolio_value_identity {} (fun _ _ _ => 1) [100, 100] [1, 0] 0 (by norm_num)⟩

/-! ## Claim C9 -/

lemma btTrade_holding_noop (cfg : BtConfig) (sizer : Int → ℚ → Nat → ℚ)
    (prices : List ℚ) (signals : List Int) (i : Nat) (st : ExecState)
    (h : st.currentPosition ≠ 0) :
    btTrade cfg sizer prices signals i st = st := by
  simp only [btTrade]
  by_cases h1 : signals.getD i 0 ≠ 0 ∧ signals.getD i 0 ≠ st.currentPosition
  · rw [if_pos h1, if_neg h, if_neg (fun hc => h1.1 hc.1)]
  · rw [if_neg h1]

lemma btRunAux_trades_invariant (cfg : BtConfig) (sizer : Int → ℚ → Nat → ℚ)
    (prices : List ℚ) (signals : List Int) : ∀ n : Nat,
    ((btRunAux cfg sizer prices signals n).exec.trades.length ≤ 1)
    ∧ ((btRunAux cfg sizer prices signals n).exec.currentPosition = 0 →
        (btRunAux cfg sizer prices signals n).exec.trades = [])
    ∧ (∀ tr ∈ (btRunAux cfg sizer prices signals n).exec.trades,
        tr.side ≠ Side.exit ∧ tr.pnl = none) := by
  intro n
  induction n with
  | zero => simp [btRunAux, btInit]
  | succ n ih =>
    have hstep : (btRunAux cfg sizer prices signals (n + 1)).exec
        = btTrade cfg sizer prices signals n (btRunAux cfg sizer prices signals n).exec := by
      simp [btRunAux, btStep]
    rw [hstep]
    by_cases hcur : (btRunAux cfg sizer prices signals n).exec.currentPosition = 0
    · have htr : (btRunAux cfg sizer prices signals n).exec.trades = [] := ih.2.1 hcur
      simp only [btTrade]
      by_cases hg : signals.getD n 0 ≠ 0 ∧
          signals.getD n 0 ≠ (btRunAux cfg sizer prices signals n).exec.currentPosition
      · rw [if_pos hg, if_pos hcur]
        split_ifs with hpos hcap hcap
        · refine ⟨by simp [htr], fun habs => absurd habs hg.1, ?_⟩
          intro tr htr2
          rw [htr] at htr2
          simp only [List.nil_append, List.mem_singleton] at htr2
          subst htr2
          exact ⟨by simp, rfl⟩
        · exact ih
        · refine ⟨by simp [htr], fun habs => absurd habs hg.1, ?_⟩
          intro tr htr2
          rw [htr] at htr2
          simp only [List.nil_append, List.mem_singleton] at htr2
          subst htr2
          exact ⟨by simp, rfl⟩
        · exact ih
      · rw [if_neg hg]
        exact ih
    · rw [btTrade_holding_noop cfg sizer prices signals n _ hcur]
      exact ih

/-- C9: in every run, once a position is open no later bar executes
another trade: while holding, a flat signal and a reversal signal both
leave the trading state unchanged; consequently the run's trade log
contains at most one trade, no trade has side `'exit'` or a `pnl` field,
and `_calculate_win_rate` returns 0. -/
theorem single_trade_per_run (cfg : BtConfig) (sizer : Int → ℚ → Nat → ℚ)
    (prices : List ℚ) (signals : List Int) :
    ((btRun cfg sizer prices signals).exec.trades.length ≤ 1)
    ∧ (∀ tr ∈ (btRun cfg sizer prices signals).exec.trades,
        tr.side ≠ Side.exit ∧ tr.pnl = none)
    ∧ (win_rate (btRun cfg sizer prices signals).exec.trades = 0)
    ∧ (∀ (i : Nat) (st : BtState), st.exec.currentPosition ≠ 0 →
        (signals.getD i 0 = 0 ∨ signals.getD i 0 = -st.exec.currentPosition) →
        (btStep cfg sizer prices signals i st).exec = st.exec) := by
  have hinv := btRunAux_trades_invariant cfg sizer prices signals prices.length
  have hlen1 : (btRun cfg sizer prices signals).exec.trades.length ≤ 1 := hinv.1
  refine ⟨hinv.1, hinv.2.2, ?_, ?_⟩
  · simp only [win_rate]
    rw [if_pos (by omega : (btRun cfg sizer prices signals).exec.trades.length < 2)]
  · intro i st hhold _
    show btTrade cfg sizer prices signals i st.exec = st.exec
    exact btTrade_holding_noop cfg sizer prices signals i st.exec hhold

/-- Witness for C9: a concrete run, and a concrete holding state hit with
a flat signal. -/
theorem single_trade_per_run_witness :
    (win_rate (btRun {} (fun _ _ _ => 1) [100, 100] [1, 0]).exec.trades = 0)
    ∧ ((1 : Int) ≠ 0 ∧ [(1 : Int), 0].getD 1 0 = 0)
    ∧ ((btStep {} (fun _ _ _ => 1) [100, 100] [1, 0] 1
        { exec := { capital := 5, positions := some 2, trades := [], currentPosition := 1 }
          positionCol := []
          capitalCol := []
          portfolioValueCol := []
          qtyCol := []
          equityCurve := [] }).exec
      = { capital := 5, positions := some 2, trades := [], currentPosition := 1 }) := by
  have h := single_trade_per_run {} (fun _ _ _ => 1) [100, 100] [1, 0]
  refine ⟨h.2.2.1, ⟨by norm_num, by norm_num⟩, ?_⟩
  exact h.2.2.2 1
    { exec := { capital := 5, positions := some 2, trades := [], currentPosition := 1 }
      positionCol := []
      capitalCol := []
      portfolioValueCol := []
      qtyCol := []
      equityCurve := [] }
    (by norm_num) (Or.inl (by norm_num))

/-! ## Claim C1 -/

/-- C1: evaluation of `Backtester.run` at a failing input for the claim
that a zero signal while holding closes the position.  Two bars at price
100, signals `[1, 0]`, sizing 1 unit, default configuration: the long
position opened on bar 0 is still held after the zero-signal bar 1 — the
positions mapping still contains the quantity, the position flag is still
1, the only logged trade is the opening buy (no exit trade), and capital
is exactly the post-opening amount
`100000 − (100.05 + 0.10005) = 1997996999/20000` (no closing credit was
applied).  The exit logic is unreachable because it is nested inside
`if signal != 0 and signal != current_position`. -/
theorem run_never_closes_position :
    ((btRun {} (fun _ _ _ => 1) [100, 100] [1, 0]).exec.positions = some 1)
    ∧ ((btRun {} (fun _ _ _ => 1) [100, 100] [1, 0]).exec.currentPosition = 1)
    ∧ ((btRun {} (fun _ _ _ => 1) [100, 100] [1, 0]).exec.trades.map Trade.side = [Side.buy])
    ∧ ((btRun {} (fun _ _ _ => 1) [100, 100] [1, 0]).exec.capital = 1997996999 / 20000) := by
  norm_num [btRun, btRunAux, btStep, btTrade, btInit, calculate_execution_price,
    calculate_commission_cost, List.getD_cons_zero, List.getD_cons_succ, abs_one]

/-! ## Claim C2 -/

/-- C2: evaluation of `risk_parity_weights` at a failing input.  Two
perfectly correlated assets with identical return columns
`[0.01, 0.02, 0.03]` have nonzero per-asset variances (both annualized
variances are 63/2500), yet the function raises instead of returning the
inverse-volatility weights: the unused `inv_cov = np.linalg.inv(cov_matrix)`
computation fails on the singular covariance matrix.  The failure is
independent of the square-root model. -/
theorem risk_parity_raises_on_singular_covariance :
    ∀ sqrtQ : ℚ → ℚ,
      (PortfolioOptimizer.risk_parity_weights sqrtQ
          [[1/100, 2/100, 3/100], [1/100, 2/100, 3/100]] = Except.error "Singular matrix")
      ∧ ((PortfolioOptimizer.diagQ (PortfolioOptimizer.calculate_covariance_matrix
          [[1/100, 2/100, 3/100], [1/100, 2/100, 3/100]])).getD 0 0 ≠ 0)
      ∧ ((PortfolioOptimizer.diagQ (PortfolioOptimizer.calculate_covariance_matrix
          [[1/100, 2/100, 3/100], [1/100, 2/100, 3/100]])).getD 1 0 ≠ 0) := by
  intro sqrtQ
  have hcov : PortfolioOptimizer.calculate_covariance_matrix
      [[(1:ℚ)/100, 2/100, 3/100], [1/100, 2/100, 3/100]]
      = [[63/2500, 63/2500], [63/2500, 63/2500]] := by
    norm_num [PortfolioOptimizer.calculate_covariance_matrix, sampleCov, meanD]
  refine ⟨?_, ?_, ?_⟩
  · simp only [PortfolioOptimizer.risk_parity_weights, hcov]
    rw [if_pos (by norm_num [detQ, List.range_succ] :
      detQ [[(63:ℚ)/2500, 63/2500], [63/2500, 63/2500]] = 0)]
  · rw [hcov]
    norm_num [PortfolioOptimizer.diagQ, List.range_succ]
  · rw [hcov]
    norm_num [PortfolioOptimizer.diagQ, List.range_succ]

/-! ## Claim C8 -/

lemma getD_map_lt (f : ℚ → ℚ) (l : List ℚ) (i : Nat) (hi : i < l.length) (d e : ℚ) :
    (l.map f).getD i d = f (l.getD i e) := by
  rw [List.getD_eq_getElem _ _ (by simpa using hi), List.getD_eq_getElem _ _ hi,
    List.getElem_map]

lemma sum_map_congr (f : ℚ → ℚ) : ∀ (v v' : List ℚ), v'.length = v.length →
    (∀ j, j < v.length → v'.getD j 0 = v.getD j 0) →
    (v'.map f).sum = (v.map f).sum := by
  intro v
  induction v with
  | nil =>
    intro v' hlen _
    rw [List.eq_nil_of_length_eq_zero hlen]
  | cons x xs ih =>
    intro v' hlen hsame
    cases v' with
    | nil => simp at hlen
    | cons y ys =>
      have hy : y = x := by simpa using hsame 0 (by simp)
      have hlen' : ys.length = xs.length := by simpa using hlen
      have hsame' : ∀ j, j < xs.length → ys.getD j 0 = xs.getD j 0 := by
        intro j hj
        simpa using hsame (j + 1) (by simpa using Nat.succ_lt_succ hj)
      simp [hy, ih ys hlen' hsame']

lemma sum_map_eq_of_ne_at (f : ℚ → ℚ) : ∀ (v v' : List ℚ) (i : Nat),
    v'.length = v.length → i < v.length →
    (∀ j, j < v.length → j ≠ i → v'.getD j 0 = v.getD j 0) →
    (v'.map f).sum = (v.map f).sum - f (v.getD i 0) + f (v'.getD i 0) := by
  intro v
  induction v with
  | nil => intro v' i _ hi _; simp at hi
  | cons x xs ih =>
    intro v' i hlen hi hsame
    cases v' with
    | nil => simp at hlen
    | cons y ys =>
      have hlen' : ys.length = xs.length := by simpa using hlen
      cases i with
      | zero =>
        have htail : (ys.map f).sum = (xs.map f).sum := by
          apply sum_map_congr f xs ys hlen'
          intro j hj
          simpa using hsame (j + 1) (by simpa using Nat.succ_lt_succ hj) (by omega)
        simp only [List.map_cons, List.sum_cons, htail, List.getD_cons_zero]
        ring
      | succ i =>
        have hy : y = x := by simpa using hsame 0 (by simp) (by omega)
        have hrec := ih ys i hlen' (by simpa using hi) (fun j hj hne => by
          simpa using hsame (j + 1) (by simpa using Nat.succ_lt_succ hj) (by omega))
        simp only [List.map_cons, List.sum_cons, List.getD_cons_succ, hy, hrec]
        ring

lemma getD_le_sum_of_nonneg (l : List ℚ) (hpos : ∀ x ∈ l, 0 ≤ x) (i : Nat)
    (hi : i < l.length) : l.getD i 0 ≤ l.sum := by
  rw [List.getD_eq_getElem _ _ hi]
  exact List.single_le_sum hpos _ (List.getElem_mem hi)

lemma getD_lt_sum_of_pos (l : List ℚ) (h2 : 2 ≤ l.length) (hpos : ∀ x ∈ l, 0 < x)
    (i : Nat) (hi : i < l.length) : l.getD i 0 < l.sum := by
  cases l with
  | nil => simp at h2
  | cons x xs =>
    have hxs : xs ≠ [] := by
      intro h
      subst h
      simp at h2
    cases i with
    | zero =>
      have hsum : 0 < xs.sum :=
        List.sum_pos xs (fun y hy => hpos y (List.mem_cons_of_mem x hy)) hxs
      simp only [List.getD_cons_zero, List.sum_cons]
      linarith
    | succ i =>
      have hi' : i < xs.length := by simpa using hi
      have hle : xs.getD i 0 ≤ xs.sum :=
        getD_le_sum_of_nonneg xs (fun y hy => (hpos y (List.mem_cons_of_mem x hy)).le) i hi'
      have hx : 0 < x := hpos x (List.mem_cons_self x xs)
      simp only [List.getD_cons_succ, List.sum_cons]
      linarith

lemma invVolNormalize_strict_anti (v v' : List ℚ) (i : Nat)
    (hlen : v'.length = v.length) (h2 : 2 ≤ v.length) (hi : i < v.length)
    (hpos : ∀ x ∈ v, 0 < x) (hpos' : ∀ x ∈ v', 0 < x)
    (hsame : ∀ j, j < v.length → j ≠ i → v'.getD j 0 = v.getD j 0)
    (hlt : v.getD i 0 < v'.getD i 0) :
    (PortfolioOptimizer.invVolNormalize v').getD i 0
      < (PortfolioOptimizer.invVolNormalize v).getD i 0 := by
  have hvi : 0 < v.getD i 0 := by
    rw [List.getD_eq_getElem _ _ hi]
    exact hpos _ (List.getElem_mem hi)
  have hvi' : 0 < v'.getD i 0 := by
    rw [List.getD_eq_getElem _ _ (by omega : i < v'.length)]
    exact hpos' _ (List.getElem_mem (by omega))
  have ha : 0 < 1 / v.getD i 0 := by positivity
  have ha' : 0 < 1 / v'.getD i 0 := by positivity
  have haa : 1 / v'.getD i 0 < 1 / v.getD i 0 := one_div_lt_one_div_of_lt hvi hlt
  have hmap_pos : ∀ x ∈ v.map (fun x => 1 / x), 0 < x := by
    intro x hx
    rcases List.mem_map.mp hx with ⟨y, hy, rfl⟩
    have := hpos y hy
    positivity
  have hS' : (v'.map (fun x => 1 / x)).sum
      = (v.map (fun x => 1 / x)).sum - 1 / v.getD i 0 + 1 / v'.getD i 0 := by
    have := sum_map_eq_of_ne_at (fun x => 1 / x) v v' i hlen hi hsame
    simpa using this
  have hlt_sum : (v.map (fun x => 1 / x)).getD i 0 < (v.map (fun x => 1 / x)).sum :=
    getD_lt_sum_of_pos _ (by simpa using h2) hmap_pos i (by simpa using hi)
  rw [getD_map_lt (fun x => 1 / x) v i hi 0 0] at hlt_sum
  have hR : 0 < (v.map (fun x => 1 / x)).sum - 1 / v.getD i 0 := by linarith
  have hw : (PortfolioOptimizer.invVolNormalize v).getD i 0
      = (1 / v.getD i 0) / (v.map (fun x => 1 / x)).sum := by
    simp only [PortfolioOptimizer.invVolNormalize]
    rw [getD_map_lt (fun x => x / (v.map (fun x => 1 / x)).sum)
      (v.map (fun x => 1 / x)) i (by simpa using hi) 0 0]
    rw [getD_map_lt (fun x => 1 / x) v i hi 0 0]
  have hw' : (PortfolioOptimizer.invVolNormalize v').getD i 0
      = (1 / v'.getD i 0) / (v'.map (fun x => 1 / x)).sum := by
    simp only [PortfolioOptimizer.invVolNormalize]
    rw [getD_map_lt (fun x => x / (v'.map (fun x => 1 / x)).sum)
      (v'.map (fun x => 1 / x)) i (by rw [List.length_map]; omega) 0 0]
    rw [getD_map_lt (fun x => 1 / x) v' i (by omega : i < v'.length) 0 0]
  rw [hw, hw', hS']
  rw [div_lt_div_iff (by linarith) (by linarith)]
  nlinarith [mul_pos (sub_pos.mpr haa) hR]

lemma natSqrt_eq (n m : ℕ) (h : m * m = n) : Nat.sqrt n = m := by rw [← h, Nat.sqrt_eq]

lemma ratSqrt_eval (q : ℚ) (m k : ℕ) (h1 : q.num.toNat = m * m) (h2 : q.den = k * k) :
    ratSqrt q = (m : ℚ) / (k : ℚ) := by
  rw [ratSqrt, h1, h2, Nat.sqrt_eq, Nat.sqrt_eq]

/-- C8 (amended, at least two assets): the risk-parity weights are
strictly decreasing in an asset's own volatility — for two returns
matrices over the same n ≥ 2 assets whose per-asset volatilities agree
except that asset `i`'s volatility is strictly larger in the second, and
whose covariance matrices are nonsingular (so the unused `np.linalg.inv`
call does not raise), asset `i`'s weight is strictly smaller in the
second result, all volatilities being positive. -/
theorem risk_parity_weights_strictly_decreasing
    (sqrtQ : ℚ → ℚ) (cols cols' : List (List ℚ)) (i : Nat)
    (hlen : cols'.length = cols.length) (h2 : 2 ≤ cols.length) (hi : i < cols.length)
    (hdet : detQ (PortfolioOptimizer.calculate_covariance_matrix cols) ≠ 0)
    (hdet' : detQ (PortfolioOptimizer.calculate_covariance_matrix cols') ≠ 0)
    (hpos : ∀ j, j < cols.length → 0 < PortfolioOptimizer.assetVol sqrtQ cols j)
    (hpos' : ∀ j, j < cols.length → 0 < PortfolioOptimizer.assetVol sqrtQ cols' j)
    (hsame : ∀ j, j < cols.length → j ≠ i →
      PortfolioOptimizer.assetVol sqrtQ cols' j = PortfolioOptimizer.assetVol sqrtQ cols j)
    (hmore : PortfolioOptimizer.assetVol sqrtQ cols i
      < PortfolioOptimizer.assetVol sqrtQ cols' i) :
    ∃ w w', PortfolioOptimizer.risk_parity_weights sqrtQ cols = Except.ok w
      ∧ PortfolioOptimizer.risk_parity_weights sqrtQ cols' = Except.ok w'
      ∧ w'.getD i 0 < w.getD i 0 := by
  have hvlen : ((PortfolioOptimizer.diagQ
      (PortfolioOptimizer.calculate_covariance_matrix cols)).map sqrtQ).length
      = cols.length := by
    simp [PortfolioOptimizer.diagQ, PortfolioOptimizer.calculate_covariance_matrix]
  have hvlen' : ((PortfolioOptimizer.diagQ
      (PortfolioOptimizer.calculate_covariance_matrix cols')).map sqrtQ).length
      = cols'.length := by
    simp [PortfolioOptimizer.diagQ, PortfolioOptimizer.calculate_covariance_matrix]
  have hvget : ∀ j, j < cols.length →
      ((PortfolioOptimizer.diagQ
        (PortfolioOptimizer.calculate_covariance_matrix cols)).map sqrtQ).getD j 0
      = PortfolioOptimizer.assetVol sqrtQ cols j := by
    intro j hj
    rw [getD_map_lt sqrtQ _ j (by
      have := hvlen
      rw [List.length_map] at this
      omega) 0 0]
    rfl
  have hvget' : ∀ j, j < cols.length →
      ((PortfolioOptimizer.diagQ
        (PortfolioOptimizer.calculate_covariance_matrix cols')).map sqrtQ).getD j 0
      = PortfolioOptimizer.assetVol sqrtQ cols' j := by
    intro j hj
    rw [getD_map_lt sqrtQ _ j (by
      have := hvlen'
      rw [List.length_map] at this
      omega) 0 0]
    rfl
  have hmempos : ∀ x ∈ (PortfolioOptimizer.diagQ
      (PortfolioOptimizer.calculate_covariance_matrix cols)).map sqrtQ, 0 < x := by
    intro x hx
    rcases List.mem_iff_getElem.mp hx with ⟨j, hj, rfl⟩
    have hjlen : j < cols.length := by omega
    have := hpos j hjlen
    rw [← hvget j hjlen, List.getD_eq_getElem _ _ hj] at this
    exact this
  have hmempos' : ∀ x ∈ (PortfolioOptimizer.diagQ
      (PortfolioOptimizer.calculate_covariance_matrix cols')).map sqrtQ, 0 < x := by
    intro x hx
    rcases List.mem_iff_getElem.mp hx with ⟨j, hj, rfl⟩
    have hjlen : j < cols.length := by omega
    have := hpos' j hjlen
    rw [← hvget' j hjlen, List.getD_eq_getElem _ _ hj] at this
    exact this
  refine ⟨PortfolioOptimizer.invVolNormalize
      ((PortfolioOptimizer.diagQ
        (PortfolioOptimizer.calculate_covariance_matrix cols)).map sqrtQ),
    PortfolioOptimizer.invVolNormalize
      ((PortfolioOptimizer.diagQ
        (PortfolioOptimizer.calculate_covariance_matrix cols')).map sqrtQ),
    ?_, ?_, ?_⟩
  · simp only [PortfolioOptimizer.risk_parity_weights]
    rw [if_neg hdet]
  · simp only [PortfolioOptimizer.risk_parity_weights]
    rw [if_neg hdet']
  · apply invVolNormalize_strict_anti _ _ i (by omega) (by omega) (by omega)
      hmempos hmempos'
    · intro j hj hne
      have hjlen : j < cols.length := by omega
      rw [hvget j hjlen, hvget' j hjlen]
      exact hsame j hjlen hne
    · rw [hvget i hi, hvget' i hi]
      exact hmore

/-- C8 counterexample: with a single asset, doubling the asset's
volatility (from 6 to 12, both positive, computed through the whole
covariance pipeline) leaves the risk-parity weight unchanged at 1, so the
weight is not strictly smaller — the claim fails for one-asset matrices. -/
theorem risk_parity_single_asset_weight_constant :
    (PortfolioOptimizer.assetVol ratSqrt [[1/2, -1/2, 1/2, -1/2, 0, 0, 0, 0]] 0 = 6)
    ∧ (PortfolioOptimizer.assetVol ratSqrt [[1, -1, 1, -1, 0, 0, 0, 0]] 0 = 12)
    ∧ (PortfolioOptimizer.risk_parity_weights ratSqrt [[1/2, -1/2, 1/2, -1/2, 0, 0, 0, 0]]
        = Except.ok [1])
    ∧ (PortfolioOptimizer.risk_parity_weights ratSqrt [[1, -1, 1, -1, 0, 0, 0, 0]]
        = Except.ok [1]) := by
  refine ⟨?_, ?_, ?_, ?_⟩ <;>
    norm_num [PortfolioOptimizer.assetVol, PortfolioOptimizer.risk_parity_weights,
      PortfolioOptimizer.calculate_covariance_matrix, sampleCov, meanD, detQ,
      PortfolioOptimizer.diagQ, PortfolioOptimizer.invVolNormalize, List.range_succ,
      ratSqrt_eval 36 6 1 rfl rfl, ratSqrt_eval 144 12 1 rfl rfl]

/-- Witness for C8 (amended) on two uncorrelated assets with volatilities
(6, 6), the first asset's volatility then doubled to 12: its weight drops
from 1/2 to 1/3. -/
theorem risk_parity_weights_strictly_decreasing_witness :
    ∃ w w', PortfolioOptimizer.risk_parity_weights ratSqrt
        [[1/2, -1/2, 1/2, -1/2, 0, 0, 0, 0], [0, 0, 0, 0, 1/2, -1/2, 1/2, -1/2]]
        = Except.ok w
      ∧ PortfolioOptimizer.risk_parity_weights ratSqrt
        [[1, -1, 1, -1, 0, 0, 0, 0], [0, 0, 0, 0, 1/2, -1/2, 1/2, -1/2]]
        = Except.ok w'
      ∧ w'.getD 0 0 < w.getD 0 0 := by
  apply risk_parity_weights_strictly_decreasing ratSqrt
    [[1/2, -1/2, 1/2, -1/2, 0, 0, 0, 0], [0, 0, 0, 0, 1/2, -1/2, 1/2, -1/2]]
    [[1, -1, 1, -1, 0, 0, 0, 0], [0, 0, 0, 0, 1/2, -1/2, 1/2, -1/2]] 0
    (by norm_num) (by norm_num) (by norm_num)
  · norm_num [detQ, PortfolioOptimizer.calculate_covariance_matrix, sampleCov, meanD,
      List.range_succ]
  · norm_num [detQ, PortfolioOptimizer.calculate_covariance_matrix, sampleCov, meanD,
      List.range_succ]
  · intro j hj
    have hj2 : j < 2 := by simpa using hj
    interval_cases j <;>
      norm_num [PortfolioOptimizer.assetVol, PortfolioOptimizer.calculate_covariance_matrix,
        sampleCov, meanD, PortfolioOptimizer.diagQ, List.range_succ,
        ratSqrt_eval 36 6 1 rfl rfl]
  · intro j hj
    have hj2 : j < 2 := by simpa using hj
    interval_cases j <;>
      norm_num [PortfolioOptimizer.assetVol, PortfolioOptimizer.calculate_covariance_matrix,
        sampleCov, meanD, PortfolioOptimizer.diagQ, List.range_succ,
        ratSqrt_eval 36 6 1 rfl rfl, ratSqrt_eval 144 12 1 rfl rfl]
  · intro j hj hne
    have hj2 : j < 2 := by simpa using hj
    interval_cases j
    · omega
    · norm_num [PortfolioOptimizer.assetVol, PortfolioOptimizer.calculate_covariance_matrix,
        sampleCov, meanD, PortfolioOptimizer.diagQ, List.range_succ,
        ratSqrt_eval 36 6 1 rfl rfl]
  · norm_num [PortfolioOptimizer.assetVol, PortfolioOptimizer.calculate_covariance_matrix,
      sampleCov, meanD, PortfolioOptimizer.diagQ, List.range_succ,
      ratSqrt_eval 36 6 1 rfl rfl, ratSqrt_eval 144 12 1 rfl rfl]
